import Mathlib

/-!
Shallow embedding of the ENTSO-E generation-unit explorer (`src/app.py`).

Tables are lists of row structures; pandas operations are translated to
list operations:
  * `DataFrame.drop_duplicates()` (no subset): keep the first occurrence of
    each distinct row, in order — `dropDuplicates`;
  * `sort_values("UpdateTime(UTC)")` followed by
    `groupby("GenerationUnitCode").tail(1)`: pandas' default
    `kind='quicksort'` is an *unstable* sort, so the sort is modelled as a
    relation (`sortedByUpd`: any permutation of the input that is sorted by
    update time — rows tying on update time may come out in any order);
    `tail(1)` keeps the last row of each unit-code group in frame order —
    `groupTail1`.  Where a single concrete table is needed (the displayed
    registry view), `registryDedup` instantiates the sort with
    `List.mergeSort`, one admissible sort output; the claims proved about
    that pipeline do not depend on the tie order;
  * boolean-mask filtering `df[mask]` with a row-local mask — `List.filter`;
  * `groupby([...]).mean()` — one output row per distinct key, carrying the
    arithmetic mean of the group (`groupMean`); group order is immaterial
    to the properties proved here;
  * timestamps are `Nat`, day-granularity dates are `(year, month, day)`
    triples ordered lexicographically (the code compares zero-padded
    `"YYYY-MM-DD"` strings, whose lexicographic order coincides with the
    lexicographic order on the triples), floats are `ℚ`.

Session state (`st.session_state`) is an explicit `SessionState` record;
the callbacks `reset_filters` and `sync_selection` are state transformers.
-/

namespace PowerPlantExplorer

/-- A row of the unit registry after the column projection of `app.py`
lines 51-65.  `idx` is the column added by `reset_index()` (line 65). -/
structure UnitRow where
  idx : Nat
  area : String
  unitCode : String
  unitName : String
  unitType : String
  unitStatus : String
  capacity : ℚ
  prodCode : String
  prodName : String
  updateTime : Nat
deriving DecidableEq, Repr

/-- A day-granularity date, ordered lexicographically. -/
structure DateT where
  year : Nat
  month : Nat
  day : Nat
deriving DecidableEq, Repr

/-- Lexicographic order on dates; agrees with the string comparison of
zero-padded `"YYYY-MM-DD"` dates performed by `DateTime.between` at
`app.py` lines 275-279. -/
def dateLe (a b : DateT) : Bool :=
  a.year < b.year ||
    (a.year == b.year &&
      (a.month < b.month || (a.month == b.month && a.day ≤ b.day)))

/-- A row of the generation table after the projection
`[["DateTime", "GenerationUnitCode", "Generation_MWh"]]` (line 266). -/
structure GenRow where
  date : DateT
  unitCode : String
  gen : ℚ
deriving DecidableEq, Repr

/-- Helper for `dropDuplicates`: drop every element already in `seen`,
keeping first occurrences. -/
def dedupFirstAux {α : Type} [DecidableEq α] (seen : List α) : List α → List α
  | [] => []
  | a :: l => if a ∈ seen then dedupFirstAux seen l else a :: dedupFirstAux (a :: seen) l

/-- pandas `DataFrame.drop_duplicates()`: keep the first occurrence of each
distinct row, preserving order (lines 222 and 267). -/
def dropDuplicates {α : Type} [DecidableEq α] (l : List α) : List α :=
  dedupFirstAux [] l

/-- Comparison used by `sort_values("UpdateTime(UTC)")` (line 172). -/
def updLe (a b : UnitRow) : Bool :=
  a.updateTime ≤ b.updateTime

/-- `groupby("GenerationUnitCode").tail(1)` (lines 173-174): keep, in frame
order, the last row of each unit-code group. -/
def groupTail1 : List UnitRow → List UnitRow
  | [] => []
  | r :: rs =>
    if rs.any (fun s => s.unitCode == r.unitCode) then groupTail1 rs
    else r :: groupTail1 rs

/-- The outputs `sort_values("UpdateTime(UTC)")` (line 172) may produce:
pandas guarantees a permutation of the input sorted by the key, and with
the default unstable `kind='quicksort'` nothing more — rows tying on
update time may appear in any order. -/
def sortedByUpd (rows s : List UnitRow) : Prop :=
  s.Perm rows ∧ s.Pairwise (fun a b => updLe a b = true)

/-- Registry deduplication, `app.py` lines 171-175: sort by update time,
then last row per unit-code group.  The unstable sort is instantiated here
with `List.mergeSort`, one admissible output (`sortedByUpd` holds of it);
properties that depend on which of several equal-update-time rows comes
last are stated over `sortedByUpd` instead. -/
def registryDedup (rows : List UnitRow) : List UnitRow :=
  groupTail1 (rows.mergeSort updLe)

/-- The five filter-widget values consumed by the filter block
(lines 119-155) plus the selection list. -/
structure FilterState where
  searchTerm : String
  selectedAreas : List String
  selectedTypes : List String
  selectedStatus : List String
  showSelectedOnly : Bool
  selectedUnits : List String
deriving DecidableEq, Repr

/-- The string cells of a row, as produced by `astype(str)` on the
displayed frame (line 206). -/
def rowStrings (r : UnitRow) : List String :=
  [toString r.idx, r.area, r.unitCode, r.unitName, r.unitType, r.unitStatus,
   toString r.capacity, r.prodCode, r.prodName, toString r.updateTime]

/-- `needle` is a prefix of `hay` (on character lists). -/
def startsWithChars : List Char → List Char → Bool
  | [], _ => true
  | _ :: _, [] => false
  | a :: as, b :: bs => a == b && startsWithChars as bs

/-- `needle` occurs contiguously somewhere in `hay` (on character lists). -/
def containsChars (needle : List Char) : List Char → Bool
  | [] => startsWithChars needle []
  | b :: bs => startsWithChars needle (b :: bs) || containsChars needle bs

/-- Case-insensitive substring containment, as in
`str.contains(search_term, case=False)` (line 207). -/
def containsCI (hay needle : String) : Bool :=
  containsChars needle.toLower.toList hay.toLower.toList

/-- Row predicate of the free-text search (lines 205-209): some column's
string representation contains the term, case-insensitively. -/
def matchesSearch (term : String) (r : UnitRow) : Bool :=
  (rowStrings r).any (fun s => containsCI s term)

/-- The five filtering steps of the filter engine (lines 177-210). -/
inductive FStep where
  | selOnly
  | area
  | utype
  | ustatus
  | search
deriving DecidableEq, Repr

/-- One step of the filter engine: each is guarded by the truthiness of its
widget value (`if show_selected_only`, `if selected_areas`, ...,
`if search_term`) and otherwise filters by a row-local predicate. -/
def applyStep (fs : FilterState) (s : FStep) (df : List UnitRow) : List UnitRow :=
  match s with
  | .selOnly =>
    if fs.showSelectedOnly then
      df.filter (fun r => fs.selectedUnits.contains r.unitCode)
    else df
  | .area =>
    if fs.selectedAreas ≠ [] then
      df.filter (fun r => fs.selectedAreas.contains r.area)
    else df
  | .utype =>
    if fs.selectedTypes ≠ [] then
      df.filter (fun r => fs.selectedTypes.contains r.unitType)
    else df
  | .ustatus =>
    if fs.selectedStatus ≠ [] then
      df.filter (fun r => fs.selectedStatus.contains r.unitStatus)
    else df
  | .search =>
    if fs.searchTerm ≠ "" then
      df.filter (matchesSearch fs.searchTerm)
    else df

/-- Apply a sequence of filter steps left to right. -/
def applySteps (fs : FilterState) (steps : List FStep) (df : List UnitRow) : List UnitRow :=
  steps.foldl (fun d s => applyStep fs s d) df

/-- The order in which `app.py` applies the five filters (lines 177-210). -/
def filterOrder : List FStep :=
  [.selOnly, .area, .utype, .ustatus, .search]

/-- The whole filter engine in source order. -/
def applyFilters (fs : FilterState) (df : List UnitRow) : List UnitRow :=
  applySteps fs filterOrder df

/-- Insertion of the derived boolean `Selected` column (lines 213-219). -/
def withSelected (fs : FilterState) (df : List UnitRow) : List (Bool × UnitRow) :=
  df.map (fun r => (fs.selectedUnits.contains r.unitCode, r))

/-- The displayed registry view (lines 169-222): dedup, five filters,
`Selected` column, defensive `drop_duplicates`. -/
def filtered_df_units (fs : FilterState) (units : List UnitRow) : List (Bool × UnitRow) :=
  dropDuplicates (withSelected fs (applyFilters fs (registryDedup units)))

/-- The per-session mutable state of the app: the two immutable tables
loaded at startup (lines 62-68), the selection list (line 101-102) and the
five filter-widget values kept in `st.session_state`. -/
structure SessionState where
  dfUnits : List UnitRow
  dfGeneration : List GenRow
  selectedUnits : List String
  searchTerm : String
  selectedAreas : List String
  selectedTypes : List String
  selectedStatus : List String
  showSelectedOnly : Bool
deriving Repr

/-- The `reset_filters` callback (lines 72-77). -/
def reset_filters (s : SessionState) : SessionState :=
  { s with
    searchTerm := ""
    selectedAreas := []
    selectedTypes := []
    selectedStatus := []
    showSelectedOnly := false }

/-- One `Selected`-cell edit processed by the `sync_selection` callback
(lines 81-98): look up the unit code of the edited row of the displayed
view, append it if ticked and not yet present, remove its first occurrence
if unticked and present.  An index outside the view cannot be produced by
the editor and leaves the state unchanged. -/
def sync_selection (view : List (Bool × UnitRow)) (s : SessionState)
    (idx : Nat) (value : Bool) : SessionState :=
  match view[idx]? with
  | none => s
  | some row =>
    let code := row.2.unitCode
    if value then
      if code ∈ s.selectedUnits then s
      else { s with selectedUnits := s.selectedUnits ++ [code] }
    else
      { s with selectedUnits := s.selectedUnits.erase code }

/-- The `Unselect all` button (lines 163-166):
`st.session_state["selected_units"].clear()`. -/
def unselect_all (s : SessionState) : SessionState :=
  { s with selectedUnits := [] }

/-- The user interactions that mutate `selected_units`, plus the filter
reset. -/
inductive UIOp where
  | edit (view : List (Bool × UnitRow)) (idx : Nat) (value : Bool)
  | unselectAll
  | resetFilters

/-- Apply one user interaction to the session state. -/
def applyOp (s : SessionState) : UIOp → SessionState
  | .edit view idx value => sync_selection view s idx value
  | .unselectAll => unselect_all s
  | .resetFilters => reset_filters s

/-- Apply a sequence of user interactions, oldest first. -/
def applyOps (s : SessionState) (ops : List UIOp) : SessionState :=
  ops.foldl applyOp s

/-- `DateTime.between(f"{y0}-01-01", f"{y1}-12-31")` (lines 276-278),
inclusive at both endpoints. -/
def dateInRange (y0 y1 : Nat) (d : DateT) : Bool :=
  dateLe ⟨y0, 1, 1⟩ d && dateLe d ⟨y1, 12, 31⟩

/-- The grouping key of the generation aggregation (line 281). -/
def genKey (r : GenRow) : DateT × String :=
  (r.date, r.unitCode)

/-- `groupby(["DateTime", "GenerationUnitCode"]).mean()` (lines 280-284):
one row per distinct `(date, unit_code)` key, whose value is the arithmetic
mean of the group.  The keys are listed in first-seen order; pandas orders
the groups by sorted key, but no property below depends on row order. -/
def groupMean (l : List GenRow) : List GenRow :=
  (dropDuplicates (l.map genKey)).map (fun k =>
    let g := l.filter (fun r => decide (genKey r = k))
    { date := k.1, unitCode := k.2,
      gen := (g.map GenRow.gen).sum / (g.length : ℚ) })

/-- The two row filters of the aggregator inside the non-empty-selection
branch (lines 272-279), applied to the deduplicated generation table
(lines 265-269): selection membership, then inclusive year range. -/
def selectionFiltered (gen : List GenRow) (selected : List String)
    (y0 y1 : Nat) : List GenRow :=
  ((dropDuplicates gen).filter (fun r => selected.contains r.unitCode)).filter
    (fun r => dateInRange y0 y1 r.date)

/-- The `filtered_generation` table as it stands after lines 265-286: with
a non-empty selection it is the filtered and group-averaged table; with an
empty selection the two filters and the aggregation are skipped and the
variable keeps the deduplicated full generation table. -/
def filtered_generation (gen : List GenRow) (selected : List String)
    (y0 y1 : Nat) : List GenRow :=
  if selected.length > 0 then groupMean (selectionFiltered gen selected y0 y1)
  else dropDuplicates gen

/-- The three informational outcomes of the generation tab. -/
inductive GenSignal where
  | noSelection
  | noData
  | chart
deriving DecidableEq, Repr

/-- Which message/visual the generation tab produces (lines 286, 288, 323):
`st.info` when the selection is empty, the chart when the aggregated table
is non-empty, `st.warning` when it is empty. -/
def genSignal (gen : List GenRow) (selected : List String)
    (y0 y1 : Nat) : GenSignal :=
  if selected.length > 0 then
    if filtered_generation gen selected y0 y1 = [] then .noData else .chart
  else .noSelection

/-- The guard of the chart/export branch (line 288). -/
def chartShown (gen : List GenRow) (selected : List String)
    (y0 y1 : Nat) : Bool :=
  selected.length > 0 && !(filtered_generation gen selected y0 y1).isEmpty

/-- All snapshots carrying unit code `c`, in input order. -/
def codeGroup (rows : List UnitRow) (c : String) : List UnitRow :=
  rows.filter (fun r => r.unitCode == c)

/-- Maximum update time over a list of rows (`0` for the empty list). -/
def maxUpd (rows : List UnitRow) : Nat :=
  (rows.map UnitRow.updateTime).foldr max 0

/-- The snapshot that registry deduplication is specified to keep for unit
code `c`: among the snapshots of `c` with maximal update time, the one
latest in input order. -/
def chosenSnapshot (rows : List UnitRow) (c : String) : Option UnitRow :=
  ((codeGroup rows c).filter
    (fun r => r.updateTime == maxUpd (codeGroup rows c))).getLast?

/-! Concrete sample data used by the witness theorems. -/

/-- Sample registry row. -/
def u1a : UnitRow :=
  ⟨0, "DE", "U1", "Plant A", "Coal", "Commissioned", 100, "P1", "Prod A", 5⟩

/-- A second snapshot of unit `U1` with the same update time as `u1a`. -/
def u1b : UnitRow :=
  ⟨1, "DE", "U1", "Plant A Revised", "Coal", "Commissioned", 100, "P1", "Prod A", 5⟩

/-- A snapshot of a second unit. -/
def u2 : UnitRow :=
  ⟨2, "FR", "U2", "Plant B", "Hydro", "Commissioned", 50, "P2", "Prod B", 3⟩

/-- Sample filter-widget values. -/
def fs0 : FilterState :=
  ⟨"", ["DE"], [], [], false, ["U1"]⟩

/-- Sample session state. -/
def s0 : SessionState :=
  ⟨[u1a, u1b, u2], [], ["U1"], "plant", ["DE"], ["Coal"], ["Commissioned"], true⟩

/-- Sample displayed view. -/
def view0 : List (Bool × UnitRow) :=
  [(true, u1a), (false, u2)]

/-- Sample generation rows sharing the key `(2024-06-01, "U1")`. -/
def g100 : GenRow := ⟨⟨2024, 6, 1⟩, "U1", 100⟩

/-- Sample generation row, same key as `g100`, value 120. -/
def g120 : GenRow := ⟨⟨2024, 6, 1⟩, "U1", 120⟩

/-! ### Helper lemmas about `dropDuplicates` -/

theorem mem_dedupFirstAux {α : Type} [DecidableEq α] {a : α} :
    ∀ (seen l : List α), a ∈ dedupFirstAux seen l ↔ a ∈ l ∧ a ∉ seen := by
  intro seen l
  induction l generalizing seen with
  | nil => simp [dedupFirstAux]
  | cons b l ih =>
    simp only [dedupFirstAux]
    split
    · rename_i hb
      rw [ih]
      simp only [List.mem_cons]
      constructor
      · rintro ⟨h1, h2⟩
        exact ⟨Or.inr h1, h2⟩
      · rintro ⟨h1 | h1, h2⟩
        · exact absurd (h1 ▸ hb) h2
        · exact ⟨h1, h2⟩
    · rename_i hb
      rw [List.mem_cons, ih]
      simp only [List.mem_cons]
      by_cases hab : a = b
      · subst hab
        simp [hb]
      · simp [hab]

theorem mem_dropDuplicates {α : Type} [DecidableEq α] {a : α} {l : List α} :
    a ∈ dropDuplicates l ↔ a ∈ l := by
  rw [dropDuplicates, mem_dedupFirstAux]
  simp

theorem dedupFirstAux_sublist {α : Type} [DecidableEq α] :
    ∀ (seen l : List α), List.Sublist (dedupFirstAux seen l) l := by
  intro seen l
  induction l generalizing seen with
  | nil => exact List.Sublist.refl []
  | cons b l ih =>
    simp only [dedupFirstAux]
    split
    · exact List.Sublist.cons b (ih seen)
    · exact List.Sublist.cons₂ b (ih (b :: seen))

theorem dropDuplicates_sublist {α : Type} [DecidableEq α] (l : List α) :
    List.Sublist (dropDuplicates l) l :=
  dedupFirstAux_sublist [] l

theorem nodup_dedupFirstAux {α : Type} [DecidableEq α] :
    ∀ (seen l : List α), (dedupFirstAux seen l).Nodup := by
  intro seen l
  induction l generalizing seen with
  | nil => exact List.nodup_nil
  | cons b l ih =>
    simp only [dedupFirstAux]
    split
    · exact ih seen
    · refine List.nodup_cons.mpr ⟨?_, ih (b :: seen)⟩
      intro hb
      exact ((mem_dedupFirstAux (b :: seen) l).mp hb).2 (List.mem_cons_self b seen)

theorem nodup_dropDuplicates {α : Type} [DecidableEq α] (l : List α) :
    (dropDuplicates l).Nodup :=
  nodup_dedupFirstAux [] l

/-! ### Helper lemmas about `List.filter` -/

theorem filter_swap {α : Type} (p q : α → Bool) (l : List α) :
    (l.filter p).filter q = (l.filter q).filter p := by
  induction l with
  | nil => rfl
  | cons a l ih =>
    by_cases hp : p a <;> by_cases hq : q a <;>
      simp [List.filter_cons, hp, hq, ih]

theorem filter_idem {α : Type} (p : α → Bool) (l : List α) :
    (l.filter p).filter p = l.filter p := by
  induction l with
  | nil => rfl
  | cons a l ih =>
    by_cases hp : p a <;> simp [List.filter_cons, hp, ih]

/-! ### Helper lemmas about the filter engine -/

theorem applyStep_comm (fs : FilterState) (s t : FStep) (df : List UnitRow) :
    applyStep fs s (applyStep fs t df) = applyStep fs t (applyStep fs s df) := by
  cases s <;> cases t <;> simp only [applyStep] <;> split_ifs <;>
    first | rfl | apply filter_swap

theorem applyStep_idem_aux (fs : FilterState) (s : FStep) (df : List UnitRow) :
    applyStep fs s (applyStep fs s df) = applyStep fs s df := by
  cases s <;> simp only [applyStep] <;> split_ifs <;>
    first | rfl | apply filter_idem

theorem applyStep_sublist (fs : FilterState) (s : FStep) (df : List UnitRow) :
    List.Sublist (applyStep fs s df) df := by
  cases s <;> simp only [applyStep] <;> split_ifs <;>
    first | exact List.Sublist.refl df | apply List.filter_sublist

theorem applySteps_sublist (fs : FilterState) :
    ∀ (steps : List FStep) (df : List UnitRow), List.Sublist (applySteps fs steps df) df := by
  intro steps
  induction steps with
  | nil => intro df; exact List.Sublist.refl df
  | cons s steps ih =>
    intro df
    exact (ih (applyStep fs s df)).trans (applyStep_sublist fs s df)

/-! ### Claim C8: `reset_filters` clears the five filter values and nothing
else -/

/-- C8: for every session state, `reset_filters` clears the search string,
the three multi-select filters and the selection-only toggle, and leaves
the selection list and the loaded tables unchanged. -/
theorem reset_filters_spec (s : SessionState) :
    (reset_filters s).searchTerm = "" ∧
    (reset_filters s).selectedAreas = [] ∧
    (reset_filters s).selectedTypes = [] ∧
    (reset_filters s).selectedStatus = [] ∧
    (reset_filters s).showSelectedOnly = false ∧
    (reset_filters s).selectedUnits = s.selectedUnits ∧
    (reset_filters s).dfUnits = s.dfUnits ∧
    (reset_filters s).dfGeneration = s.dfGeneration :=
  ⟨rfl, rfl, rfl, rfl, rfl, rfl, rfl, rfl⟩

/-! ### Claim C6: free-text search with an empty string is a no-op -/

/-- C6: when the search string is empty, the search step returns its input
unchanged, and the whole filter engine coincides with the engine without
the search step, whatever the other filter values are. -/
theorem search_empty_noop (fs : FilterState) (df : List UnitRow)
    (h : fs.searchTerm = "") :
    applyStep fs .search df = df ∧
    applyFilters fs df = applySteps fs [.selOnly, .area, .utype, .ustatus] df := by
  have h1 : ∀ d : List UnitRow, applyStep fs .search d = d := by
    intro d
    simp [applyStep, h]
  refine ⟨h1 df, ?_⟩
  show applySteps fs ([.selOnly, .area, .utype, .ustatus] ++ [.search]) df = _
  rw [applySteps, List.foldl_append]
  exact h1 _

/-- C6 witness. -/
theorem search_empty_noop_witness :
    applyStep ⟨"", ["DE"], [], [], false, ["U1"]⟩ .search [u1a, u2] = [u1a, u2] ∧
    applyFilters ⟨"", ["DE"], [], [], false, ["U1"]⟩ [u1a, u2] =
      applySteps ⟨"", ["DE"], [], [], false, ["U1"]⟩
        [.selOnly, .area, .utype, .ustatus] [u1a, u2] :=
  search_empty_noop ⟨"", ["DE"], [], [], false, ["U1"]⟩ [u1a, u2] rfl

/-! ### Claim C4: the filter engine is commutative and idempotent -/

/-- C4: for every filter configuration and registry table, applying the
five filter steps in any order yields the same table as any reordering,
and applying any single step twice yields the same table as applying it
once. -/
theorem filter_engine_comm_idem (fs : FilterState) (df : List UnitRow)
    (l1 l2 : List FStep) (h : l1.Perm l2) :
    applySteps fs l1 df = applySteps fs l2 df ∧
    ∀ s : FStep, applyStep fs s (applyStep fs s df) = applyStep fs s df := by
  constructor
  · induction h generalizing df with
    | nil => rfl
    | cons x h ih =>
      simp only [applySteps, List.foldl_cons]
      exact ih (applyStep fs x df)
    | swap x y l =>
      simp only [applySteps, List.foldl_cons]
      rw [applyStep_comm]
    | trans h1 h2 ih1 ih2 => exact (ih1 df).trans (ih2 df)
  · intro s
    exact applyStep_idem_aux fs s df

/-- C4 witness: reordering the area filter and the search step, on a
concrete configuration and table. -/
theorem filter_engine_comm_idem_witness :
    applySteps fs0 [FStep.area, FStep.search] [u1a, u2] =
      applySteps fs0 [FStep.search, FStep.area] [u1a, u2] ∧
    ∀ s : FStep, applyStep fs0 s (applyStep fs0 s [u1a, u2]) =
      applyStep fs0 s [u1a, u2] :=
  filter_engine_comm_idem fs0 [u1a, u2] [FStep.area, FStep.search]
    [FStep.search, FStep.area] (List.Perm.swap FStep.search FStep.area [])

/-! ### Claim C7: a `Selected`-cell edit updates only the selection list -/

/-- C7: an edit of the `Selected` cell of row `idx` of the displayed view
changes only `selectedUnits` (the rest of the session state is untouched);
ticking makes the edited row's unit code a member, unticking removes it,
and every other unit code keeps its membership status. -/
theorem sync_selection_spec (view : List (Bool × UnitRow)) (s : SessionState)
    (idx : Nat) (value : Bool) (row : Bool × UnitRow)
    (hrow : view[idx]? = some row) (hnd : s.selectedUnits.Nodup) :
    ∃ sel' : List String,
      sync_selection view s idx value = { s with selectedUnits := sel' } ∧
      ∀ c : String, c ∈ sel' ↔
        (if value then c ∈ s.selectedUnits ∨ c = row.2.unitCode
         else c ∈ s.selectedUnits ∧ c ≠ row.2.unitCode) := by
  cases value with
  | true =>
    by_cases hmem : row.2.unitCode ∈ s.selectedUnits
    · refine ⟨s.selectedUnits, ?_, ?_⟩
      · simp [sync_selection, hrow, hmem]
      · intro c
        simp only [if_pos rfl]
        constructor
        · exact Or.inl
        · rintro (hc | hc)
          · exact hc
          · exact hc ▸ hmem
    · refine ⟨s.selectedUnits ++ [row.2.unitCode], ?_, ?_⟩
      · simp [sync_selection, hrow, hmem]
      · intro c
        simp [List.mem_append]
  | false =>
    refine ⟨s.selectedUnits.erase row.2.unitCode, ?_, ?_⟩
    · simp [sync_selection, hrow]
    · intro c
      simp only [if_neg Bool.false_ne_true, List.Nodup.mem_erase_iff hnd]
      exact ⟨fun ⟨h1, h2⟩ => ⟨h2, h1⟩, fun ⟨h1, h2⟩ => ⟨h2, h1⟩⟩

/-- C7 witness: unticking `U1` on the first row of a concrete view. -/
theorem sync_selection_spec_witness :
    ∃ sel' : List String,
      sync_selection view0 s0 0 false = { s0 with selectedUnits := sel' } ∧
      ∀ c : String, c ∈ sel' ↔
        (if false then c ∈ s0.selectedUnits ∨ c = (view0.get ⟨0, by decide⟩).2.unitCode
         else c ∈ s0.selectedUnits ∧ c ≠ (view0.get ⟨0, by decide⟩).2.unitCode) :=
  sync_selection_spec view0 s0 0 false (view0.get ⟨0, by decide⟩) (by decide)
    (by decide)

/-! ### Claim C10: the selection list never contains duplicates -/

/-- C10: starting from an empty selection, any sequence of `Selected`-cell
edits, `Unselect all` clicks and filter resets leaves `selected_units`
without duplicate unit codes. -/
theorem selection_nodup_invariant (s0' : SessionState) (ops : List UIOp)
    (h : s0'.selectedUnits = []) :
    (applyOps s0' ops).selectedUnits.Nodup := by
  have step : ∀ (s : SessionState) (op : UIOp),
      s.selectedUnits.Nodup → (applyOp s op).selectedUnits.Nodup := by
    intro s op hs
    cases op with
    | edit view idx value =>
      simp only [applyOp, sync_selection]
      split
      · exact hs
      · split
        · split
          · exact hs
          · rename_i hmem
            exact ((List.perm_append_singleton _ _).nodup_iff).mpr
              (List.nodup_cons.mpr ⟨hmem, hs⟩)
        · exact List.Nodup.erase _ hs
    | unselectAll => exact List.nodup_nil
    | resetFilters => exact hs
  have main : ∀ (ops' : List UIOp) (s : SessionState),
      s.selectedUnits.Nodup → (applyOps s ops').selectedUnits.Nodup := by
    intro ops'
    induction ops' with
    | nil => intro s hs; exact hs
    | cons op ops' ih =>
      intro s hs
      exact ih (applyOp s op) (step s op hs)
  exact main ops s0' (h ▸ List.nodup_nil)

/-- C10 witness: a concrete interaction sequence that ticks `U1` twice and
`U2` once. -/
theorem selection_nodup_invariant_witness :
    (applyOps { s0 with selectedUnits := [] }
      [.edit view0 0 true, .edit view0 1 true, .edit view0 0 true]).selectedUnits.Nodup :=
  selection_nodup_invariant { s0 with selectedUnits := [] }
    [.edit view0 0 true, .edit view0 1 true, .edit view0 0 true] rfl

/-! ### Claim C1: empty selection -/

/-- C1 (amended): with an empty selection the generation tab signals
"no selection" and the chart/export branch is not taken, but the
`filtered_generation` table is left as the deduplicated full generation
table — the selection and year filters and the aggregation are skipped, so
the table is not in general empty. -/
theorem empty_selection_spec (gen : List GenRow) (selected : List String)
    (y0 y1 : Nat) (h : selected = []) :
    genSignal gen selected y0 y1 = .noSelection ∧
    chartShown gen selected y0 y1 = false ∧
    filtered_generation gen selected y0 y1 = dropDuplicates gen := by
  subst h
  exact ⟨rfl, rfl, rfl⟩

/-- C1 witness. -/
theorem empty_selection_spec_witness :
    genSignal [g100] [] 2024 2024 = .noSelection ∧
    chartShown [g100] [] 2024 2024 = false ∧
    filtered_generation [g100] [] 2024 2024 = dropDuplicates [g100] :=
  empty_selection_spec [g100] [] 2024 2024 rfl

/-- C1 counterexample: with an empty selection and the one-row generation
table `[g100]`, the code signals "no selection" as claimed, but the result
table it produces is not empty — it still holds the (deduplicated) full
generation table. -/
theorem empty_selection_counterexample :
    genSignal [g100] [] 2024 2024 = .noSelection ∧
    filtered_generation [g100] [] 2024 2024 ≠ [] := by
  exact ⟨rfl, by decide⟩

/-! ### Claim C5: the aggregator's row filters -/

/-- C5: with a non-empty selection, the aggregator's filtering stage keeps
a row of the deduplicated generation table iff its unit code is selected
and its date lies between `y0-01-01` and `y1-12-31`, both inclusive; the
aggregated table is the group-average of exactly these rows. -/
theorem selection_filter_spec (gen : List GenRow) (selected : List String)
    (y0 y1 : Nat) (r : GenRow) (h : selected ≠ []) :
    (r ∈ selectionFiltered gen selected y0 y1 ↔
      (r ∈ dropDuplicates gen ∧ r.unitCode ∈ selected ∧
       dateLe ⟨y0, 1, 1⟩ r.date ∧ dateLe r.date ⟨y1, 12, 31⟩)) ∧
    filtered_generation gen selected y0 y1 =
      groupMean (selectionFiltered gen selected y0 y1) := by
  constructor
  · simp only [selectionFiltered, List.mem_filter, dateInRange,
      Bool.and_eq_true, List.contains_iff_exists_mem_beq]
    constructor
    · rintro ⟨⟨h1, h2⟩, h3, h4⟩
      rcases h2 with ⟨c, hc, hbeq⟩
      exact ⟨h1, beq_iff_eq.mp hbeq ▸ hc, h3, h4⟩
    · rintro ⟨h1, h2, h3, h4⟩
      exact ⟨⟨h1, ⟨r.unitCode, h2, beq_iff_eq.mpr rfl⟩⟩, h3, h4⟩
  · rw [filtered_generation, if_pos]
    exact List.length_pos.mpr h

/-- C5 witness. -/
theorem selection_filter_spec_witness :
    (g100 ∈ selectionFiltered [g100] ["U1"] 2024 2024 ↔
      (g100 ∈ dropDuplicates [g100] ∧ g100.unitCode ∈ ["U1"] ∧
       dateLe ⟨2024, 1, 1⟩ g100.date ∧ dateLe g100.date ⟨2024, 12, 31⟩)) ∧
    filtered_generation [g100] ["U1"] 2024 2024 =
      groupMean (selectionFiltered [g100] ["U1"] 2024 2024) :=
  selection_filter_spec [g100] ["U1"] 2024 2024 g100 (by decide)

/-! ### Helper lemmas for the group-mean aggregation -/

theorem filter_map_keys_nil (f : DateT × String → GenRow)
    (hf : ∀ k', genKey (f k') = k') :
    ∀ (keys : List (DateT × String)) (k : DateT × String), k ∉ keys →
      (keys.map f).filter (fun r => decide (genKey r = k)) = [] := by
  intro keys
  induction keys with
  | nil => intro k _; rfl
  | cons k' keys ih =>
    intro k hk
    have hne : genKey (f k') ≠ k := by
      rw [hf]
      exact fun hc => hk (hc ▸ List.mem_cons_self _ _)
    simp only [List.map_cons, List.filter_cons, decide_eq_true_eq, if_neg hne]
    exact ih k (fun hc => hk (List.mem_cons_of_mem _ hc))

theorem filter_map_keys_single (f : DateT × String → GenRow)
    (hf : ∀ k', genKey (f k') = k') :
    ∀ (keys : List (DateT × String)), keys.Nodup → ∀ k ∈ keys,
      (keys.map f).filter (fun r => decide (genKey r = k)) = [f k] := by
  intro keys
  induction keys with
  | nil => intro _ k hk; cases hk
  | cons k' keys ih =>
    intro hnd k hk
    rcases List.mem_cons.mp hk with rfl | hk2
    · simp only [List.map_cons, List.filter_cons, decide_eq_true_eq, hf,
        if_pos rfl]
      rw [if_pos trivial, filter_map_keys_nil f hf keys k (List.nodup_cons.mp hnd).1]
    · have hne : genKey (f k') ≠ k := by
        rw [hf]
        exact fun hc => (List.nodup_cons.mp hnd).1 (hc ▸ hk2)
      simp only [List.map_cons, List.filter_cons, decide_eq_true_eq,
        if_neg hne]
      exact ih (List.nodup_cons.mp hnd).2 k hk2

theorem groupMean_group (l : List GenRow) (k : DateT × String)
    (hk : k ∈ l.map genKey) :
    (groupMean l).filter (fun r => decide (genKey r = k)) =
      [⟨k.1, k.2,
        ((l.filter (fun r => decide (genKey r = k))).map GenRow.gen).sum /
          ((l.filter (fun r => decide (genKey r = k))).length : ℚ)⟩] := by
  rw [groupMean]
  refine filter_map_keys_single _ ?_
    (dropDuplicates (l.map genKey)) (nodup_dropDuplicates _) k
    (mem_dropDuplicates.mpr hk)
  intro k'
  rfl

/-! ### Claim C3: aggregation by averaging -/

/-- C3 (amended): the aggregator collapses all rows of the *deduplicated*
filtered generation table sharing a `(date, unit_code)` key into exactly
one row whose value is the arithmetic mean of those rows.  Because
`drop_duplicates` (line 267) removes exact duplicate rows before the
grouping, the mean is taken over the distinct surviving rows of the key,
not over all raw input rows; two rows for `(2024-06-01, "U1")` with the
distinct values 100 and 120 still yield a single row with value 110. -/
theorem generation_mean_spec (gen : List GenRow) (selected : List String)
    (y0 y1 : Nat) (k : DateT × String) (h : selected ≠ [])
    (hk : k ∈ (selectionFiltered gen selected y0 y1).map genKey) :
    (filtered_generation gen selected y0 y1).filter
        (fun r => decide (genKey r = k)) =
      [⟨k.1, k.2,
        (((selectionFiltered gen selected y0 y1).filter
            (fun r => decide (genKey r = k))).map GenRow.gen).sum /
          (((selectionFiltered gen selected y0 y1).filter
            (fun r => decide (genKey r = k))).length : ℚ)⟩] := by
  rw [filtered_generation, if_pos (List.length_pos.mpr h)]
  exact groupMean_group _ k hk

/-- C3 witness: the spec's own example — distinct values 100 and 120 for
the key `(2024-06-01, "U1")` collapse to one row, whose value the
accompanying computation shows to be 110. -/
theorem generation_mean_spec_witness :
    (filtered_generation [g100, g120] ["U1"] 2024 2024).filter
        (fun r => decide (genKey r = (⟨2024, 6, 1⟩, "U1"))) =
      [⟨(⟨2024, 6, 1⟩ : DateT), "U1",
        (((selectionFiltered [g100, g120] ["U1"] 2024 2024).filter
            (fun r => decide (genKey r = (⟨2024, 6, 1⟩, "U1")))).map GenRow.gen).sum /
          (((selectionFiltered [g100, g120] ["U1"] 2024 2024).filter
            (fun r => decide (genKey r = (⟨2024, 6, 1⟩, "U1")))).length : ℚ)⟩] :=
  generation_mean_spec [g100, g120] ["U1"] 2024 2024 (⟨2024, 6, 1⟩, "U1")
    (by decide) (by decide)

/-- C3 counterexample: with the three input rows
`(2024-06-01, "U1", 100)`, `(2024-06-01, "U1", 100)`,
`(2024-06-01, "U1", 120)`, the aggregator outputs the single row with
value 110 (the duplicate 100-row is removed by `drop_duplicates` before
averaging), whereas the arithmetic mean of **all** input rows for that
pair is 320/3 ≠ 110 — so the output value is not the mean of all input
rows for the pair, contrary to the claim. -/
theorem generation_mean_counterexample :
    filtered_generation [g100, g100, g120] ["U1"] 2024 2024 =
      [⟨⟨2024, 6, 1⟩, "U1", 110⟩] ∧
    ((([g100, g100, g120].filter
        (fun r => decide (genKey r = (⟨2024, 6, 1⟩, "U1")))).map GenRow.gen).sum /
      ((([g100, g100, g120].filter
        (fun r => decide (genKey r = (⟨2024, 6, 1⟩, "U1")))).length) : ℚ)) = 320 / 3 ∧
    (320 : ℚ) / 3 ≠ 110 := by
  refine ⟨?_, ?_, by norm_num⟩
  · norm_num [filtered_generation, selectionFiltered, dropDuplicates,
      dedupFirstAux, groupMean, genKey, g100, g120, dateInRange, dateLe,
      List.filter_cons]
  · norm_num [genKey, g100, g120, List.filter_cons]

/-! ### Helper lemmas for registry deduplication -/

theorem updLe_trans : ∀ a b c : UnitRow, updLe a b → updLe b c → updLe a c := by
  intro a b c
  simp only [updLe, decide_eq_true_eq]
  exact Nat.le_trans

theorem updLe_total : ∀ a b : UnitRow, updLe a b || updLe b a := by
  intro a b
  simp only [updLe, Bool.or_eq_true, decide_eq_true_eq]
  exact Nat.le_total _ _

theorem le_foldr_max (l : List Nat) (a : Nat) (h : a ∈ l) :
    a ≤ l.foldr max 0 := by
  induction l with
  | nil => cases h
  | cons b l ih =>
    rw [List.foldr_cons]
    rcases List.mem_cons.mp h with rfl | h2
    · exact le_max_left _ _
    · exact le_trans (ih h2) (le_max_right _ _)

theorem foldr_max_mem (l : List Nat) (h : l ≠ []) : l.foldr max 0 ∈ l := by
  induction l with
  | nil => cases h rfl
  | cons b l ih =>
    rcases eq_or_ne l [] with rfl | hl
    · simp
    · rw [List.foldr_cons]
      rcases max_choice b (l.foldr max 0) with h1 | h1 <;> rw [h1]
      · exact List.mem_cons_self _ _
      · exact List.mem_cons_of_mem _ (ih hl)

theorem getLast_max_of_sorted :
    ∀ (l : List UnitRow) (hne : l ≠ [])
      (hs : l.Pairwise (fun a b => updLe a b = true)) (x : UnitRow),
      x ∈ l → x.updateTime ≤ (l.getLast hne).updateTime := by
  intro l
  induction l with
  | nil => intro hne; cases hne rfl
  | cons r l ih =>
    intro hne hs x hx
    rcases eq_or_ne l [] with rfl | hl
    · rcases List.mem_cons.mp hx with rfl | h2
      · exact Nat.le_refl _
      · cases h2
    · rw [List.getLast_cons hl]
      rcases List.mem_cons.mp hx with rfl | h2
      · have hr := (List.pairwise_cons.mp hs).1 (l.getLast hl) (List.getLast_mem hl)
        simpa [updLe, decide_eq_true_eq] using hr
      · exact ih hl (List.pairwise_cons.mp hs).2 x h2

theorem getLast?_cons_of_some {α : Type} (a y : α) {xs : List α}
    (h : xs.getLast? = some y) : (a :: xs).getLast? = some y := by
  cases xs with
  | nil => simp at h
  | cons b xs =>
    rw [List.getLast?_cons_cons]
    exact h

theorem getLast?_filter_of_getLast {α : Type} (p : α → Bool) :
    ∀ (l : List α) (hne : l ≠ []), p (l.getLast hne) = true →
      (l.filter p).getLast? = some (l.getLast hne) := by
  intro l
  induction l with
  | nil => intro hne; cases hne rfl
  | cons a l ih =>
    intro hne hp
    rcases eq_or_ne l [] with rfl | hl
    · have ha : (a :: ([] : List α)).getLast hne = a := rfl
      rw [ha] at hp ⊢
      simp [List.filter_cons, hp]
    · rw [List.getLast_cons hl] at hp ⊢
      have ihl := ih hl hp
      rw [List.filter_cons]
      split
      · exact getLast?_cons_of_some _ _ ihl
      · exact ihl

theorem groupTail1_filter (c : String) :
    ∀ l : List UnitRow,
      (groupTail1 l).filter (fun x => x.unitCode == c) =
        ((l.filter (fun x => x.unitCode == c)).getLast?).toList := by
  intro l
  induction l with
  | nil => rfl
  | cons r rs ih =>
    rw [groupTail1]
    by_cases hany : rs.any (fun s => s.unitCode == r.unitCode)
    · rw [if_pos hany, ih, List.filter_cons]
      split
      · rename_i hc
        have hrc : r.unitCode = c := by simpa [beq_iff_eq] using hc
        obtain ⟨s, hs, hsc⟩ := List.any_eq_true.mp hany
        have hmem : s ∈ rs.filter (fun x => x.unitCode == c) := by
          rw [List.mem_filter]
          refine ⟨hs, ?_⟩
          rw [beq_iff_eq] at hsc ⊢
          rw [hsc, hrc]
        rcases hfe : rs.filter (fun x => x.unitCode == c) with _ | ⟨b, bs⟩
        · rw [hfe] at hmem
          cases hmem
        · rw [hfe, List.getLast?_cons_cons]
      · rfl
    · rw [if_neg hany, List.filter_cons, List.filter_cons]
      have hnil : rs.filter (fun x => x.unitCode == c) = [] ∨
          r.unitCode ≠ c := by
        by_cases hrc : r.unitCode = c
        · left
          rw [List.filter_eq_nil_iff]
          intro x hx hxc
          apply hany
          rw [List.any_eq_true]
          refine ⟨x, hx, ?_⟩
          rw [beq_iff_eq] at hxc ⊢
          rw [hxc, hrc]
        · right
          exact hrc
      split
      · rename_i hc
        have hrc : r.unitCode = c := by simpa [beq_iff_eq] using hc
        rcases hnil with hnil | hne'
        · rw [ih, hnil]
          rfl
        · exact absurd hrc hne'
      · rw [ih]

theorem groupTail1_sublist : ∀ l : List UnitRow,
    List.Sublist (groupTail1 l) l := by
  intro l
  induction l with
  | nil => exact List.Sublist.refl []
  | cons r rs ih =>
    rw [groupTail1]
    split
    · exact List.Sublist.cons r ih
    · exact List.Sublist.cons₂ r ih

theorem nodup_map_code_groupTail1 : ∀ l : List UnitRow,
    ((groupTail1 l).map UnitRow.unitCode).Nodup := by
  intro l
  induction l with
  | nil => exact List.nodup_nil
  | cons r rs ih =>
    rw [groupTail1]
    split
    · exact ih
    · rename_i hany
      rw [List.map_cons]
      refine List.nodup_cons.mpr ⟨?_, ih⟩
      intro hmem
      obtain ⟨s, hs, hsc⟩ := List.mem_map.mp hmem
      apply hany
      rw [List.any_eq_true]
      refine ⟨s, (groupTail1_sublist rs).mem hs, ?_⟩
      rw [beq_iff_eq]
      exact hsc

/-! ### Claim C2: registry deduplication keeps a latest snapshot -/

/-- C2 counterexample: snapshots `u1a` and `u1b` of unit `U1` both carry
the maximal update time 5, with `u1b` latest in input order — it is the
row `chosenSnapshot` designates as the claimed survivor.  `[u1b, u1a]` is
a sorted permutation of the input, an output the unstable default sort is
allowed to produce, and on it the deduplication keeps `u1a`, not the
input-order-latest `u1b`: the code does not guarantee the claimed
tie-break. -/
theorem registryDedup_counterexample :
    sortedByUpd [u1a, u1b] [u1b, u1a] ∧
    chosenSnapshot [u1a, u1b] "U1" = some u1b ∧
    (groupTail1 [u1b, u1a]).filter (fun x => x.unitCode == "U1") = [u1a] ∧
    u1a ≠ u1b :=
  ⟨⟨List.Perm.swap u1a u1b [], by decide⟩, by decide, by decide, by decide⟩

/-- C2 (amended): for every registry table, every unit code occurring in
it, and every sorted permutation the (unstable) sort may produce, the
deduplication keeps exactly one row per unit code; the kept row is one of
the code's snapshots and carries the group's maximum update time, and when
a unique snapshot attains that maximum it is the one kept.  Which of
several snapshots tying on the maximum survives depends on where the
unstable sort leaves equal-update-time rows and is not determined by the
input order. -/
theorem registryDedup_amended_spec (rows : List UnitRow) (c : String)
    (s : List UnitRow) (hsort : sortedByUpd rows s)
    (h : c ∈ rows.map UnitRow.unitCode) :
    ∃ r : UnitRow,
      (groupTail1 s).filter (fun x => x.unitCode == c) = [r] ∧
      r ∈ codeGroup rows c ∧
      r.updateTime = maxUpd (codeGroup rows c) ∧
      (∀ x ∈ codeGroup rows c,
        (∀ y ∈ codeGroup rows c,
          y.updateTime = maxUpd (codeGroup rows c) → y = x) →
        x.updateTime = maxUpd (codeGroup rows c) → r = x) := by
  obtain ⟨hperm, hsorted⟩ := hsort
  obtain ⟨r0, hr0, hr0c⟩ := List.mem_map.mp h
  have hr0g : r0 ∈ s.filter (fun x => x.unitCode == c) :=
    List.mem_filter.mpr ⟨hperm.mem_iff.mpr hr0, by rw [beq_iff_eq]; exact hr0c⟩
  have hg'ne : s.filter (fun x => x.unitCode == c) ≠ [] :=
    List.ne_nil_of_mem hr0g
  have hmem_iff : ∀ x : UnitRow,
      x ∈ s.filter (fun x => x.unitCode == c) ↔ x ∈ codeGroup rows c := by
    intro x
    rw [codeGroup, List.mem_filter, List.mem_filter, hperm.mem_iff]
  have hg'sorted : (s.filter (fun x => x.unitCode == c)).Pairwise
      (fun a b => updLe a b = true) :=
    List.Pairwise.sublist (List.filter_sublist _) hsorted
  have hgl_mem := List.getLast_mem hg'ne
  have hle : ((s.filter (fun x => x.unitCode == c)).getLast hg'ne).updateTime ≤
      maxUpd (codeGroup rows c) := by
    apply le_foldr_max
    exact List.mem_map_of_mem UnitRow.updateTime ((hmem_iff _).mp hgl_mem)
  have hcg_ne : (codeGroup rows c).map UnitRow.updateTime ≠ [] := by
    have hr0cg : r0 ∈ codeGroup rows c := (hmem_iff r0).mp hr0g
    exact List.ne_nil_of_mem (List.mem_map_of_mem UnitRow.updateTime hr0cg)
  obtain ⟨y, hy, hyt⟩ := List.mem_map.mp (foldr_max_mem _ hcg_ne)
  have hge : maxUpd (codeGroup rows c) ≤
      ((s.filter (fun x => x.unitCode == c)).getLast hg'ne).updateTime := by
    rw [maxUpd, ← hyt]
    exact getLast_max_of_sorted _ hg'ne hg'sorted y ((hmem_iff y).mpr hy)
  refine ⟨(s.filter (fun x => x.unitCode == c)).getLast hg'ne, ?_, ?_, ?_, ?_⟩
  · rw [groupTail1_filter c, List.getLast?_eq_getLast _ hg'ne]
    rfl
  · exact (hmem_iff _).mp hgl_mem
  · exact le_antisymm hle hge
  · intro x _hx huniq _hxt
    exact huniq _ ((hmem_iff _).mp hgl_mem) (le_antisymm hle hge)

/-- C2 witness: snapshots with update times 5, 5, 3 and the admissible
sorted output `[u2, u1a, u1b]`. -/
theorem registryDedup_amended_spec_witness :
    ∃ r : UnitRow,
      (groupTail1 [u2, u1a, u1b]).filter (fun x => x.unitCode == "U1") = [r] ∧
      r ∈ codeGroup [u1a, u1b, u2] "U1" ∧
      r.updateTime = maxUpd (codeGroup [u1a, u1b, u2] "U1") ∧
      (∀ x ∈ codeGroup [u1a, u1b, u2] "U1",
        (∀ y ∈ codeGroup [u1a, u1b, u2] "U1",
          y.updateTime = maxUpd (codeGroup [u1a, u1b, u2] "U1") → y = x) →
        x.updateTime = maxUpd (codeGroup [u1a, u1b, u2] "U1") → r = x) :=
  registryDedup_amended_spec [u1a, u1b, u2] "U1" [u2, u1a, u1b]
    ⟨by decide, by decide⟩ (by decide)

/-! ### Claim C9: unit-code uniqueness of the displayed view -/

/-- C9: after deduplication the registry has pairwise distinct unit codes;
every filter step only removes rows, so any sequence of filter steps
preserves the uniqueness; and the displayed table (with the `Selected`
column and the defensive `drop_duplicates`) still has at most one row per
unit code. -/
theorem unitCode_unique_invariant (fs : FilterState) (units : List UnitRow) :
    ((registryDedup units).map UnitRow.unitCode).Nodup ∧
    (∀ (s : FStep) (df : List UnitRow), List.Sublist (applyStep fs s df) df) ∧
    (∀ steps : List FStep,
      ((applySteps fs steps (registryDedup units)).map UnitRow.unitCode).Nodup) ∧
    ((filtered_df_units fs units).map (fun p => p.2.unitCode)).Nodup := by
  have h1 : ((registryDedup units).map UnitRow.unitCode).Nodup :=
    nodup_map_code_groupTail1 _
  have h2 : ∀ steps : List FStep,
      ((applySteps fs steps (registryDedup units)).map UnitRow.unitCode).Nodup :=
    fun steps =>
      List.Nodup.sublist
        (List.Sublist.map _ (applySteps_sublist fs steps _)) h1
  refine ⟨h1, fun s df => applyStep_sublist fs s df, h2, ?_⟩
  have h4 : List.Sublist
      ((filtered_df_units fs units).map (fun p => p.2.unitCode))
      ((withSelected fs (applyFilters fs (registryDedup units))).map
        (fun p => p.2.unitCode)) :=
    List.Sublist.map _ (dropDuplicates_sublist _)
  refine List.Nodup.sublist h4 ?_
  rw [withSelected, List.map_map]
  exact h2 filterOrder

end PowerPlantExplorer
